import Mathlib

/-!
Verification development for the PromptBoard data/template engine
(`src/js/storage.js`, `src/js/utils.js`, `src/js/logic.js`, `src/js/io.js`,
`src/app.js`).  JavaScript strings are modelled as `List Char` (UTF-16 code
units; all inputs considered are in the basic plane), JS numbers occurring as
timestamps/counters as `Int`, and the nondeterministic environment
(`Date.now()`, `uuid()`, `localStorage` write success) as explicit parameters.
`localStorage` writes are modelled by returning the persisted value next to
the operation's result: `setState` failure leaves the persisted value
untouched, exactly as a throwing `localStorage.setItem` does.
-/

namespace Promptboard

set_option maxRecDepth 8000

/-- JavaScript strings, as lists of UTF-16 code units. -/
abbrev Str := List Char

/-- JS object used as a string-to-string map (`values`, preferences-like
lookup tables).  Keys are unique in values produced by the source; lookup
takes the first binding. -/
abbrev AList := List (Str × Str)

/-- Whitespace recognised by `String.prototype.trim` (restricted to the
ASCII whitespace actually exercised here). -/
def isWhitespace (c : Char) : Bool :=
  c == ' ' || c == '\t' || c == '\n' || c == '\r'

/-- `s.trim()`. -/
def jsTrim (s : Str) : Str :=
  ((s.dropWhile isWhitespace).reverse.dropWhile isWhitespace).reverse

/-- `s.toLowerCase()` (ASCII case mapping). -/
def toLowerStr (s : Str) : Str := s.map Char.toLower

/-- `pre` is a prefix of `s` (helper for `includes`/regex search). -/
def hasPrefixStr : Str → Str → Bool
  | _, [] => true
  | [], _ :: _ => false
  | c :: cs, d :: ds => c == d && hasPrefixStr cs ds

/-- `hay.includes(needle)`. -/
def strIncludes (hay needle : Str) : Bool :=
  if hasPrefixStr hay needle then true
  else
    match hay with
    | [] => false
    | _ :: t => strIncludes t needle

/-- Decimal rendering of a natural number (`String(n)`). -/
def natToStr (n : Nat) : Str := (Nat.repr n).data

/-- Keep the first occurrence of each element, drop later duplicates
(the `arr.indexOf(tag) === index` filter in `sanitizeTags`, and
`[...new Set(xs)]`). -/
def dedupFirstAux (seen : List Str) : List Str → List Str
  | [] => []
  | x :: xs =>
    if seen.contains x then dedupFirstAux seen xs
    else x :: dedupFirstAux (x :: seen) xs

def dedupFirst (xs : List Str) : List Str := dedupFirstAux [] xs

/-- `sanitizeTags` from `src/js/utils.js`: trim, lowercase, drop empties,
de-duplicate keeping the first occurrence.  (Non-string entries are mapped
to `''` by the source and then dropped; the model takes string tags.) -/
def sanitizeTags (tags : List Str) : List Str :=
  dedupFirst (((tags.map (fun t => toLowerStr (jsTrim t)))).filter
    (fun t => !t.isEmpty))

/-- Wrap an integer to the 32-bit signed range (JS `x & x` / `ToInt32`). -/
def toInt32 (n : Int) : Int :=
  let m := n % 4294967296
  if m < 2147483648 then m else m - 4294967296

/-- One step of the rolling hash: `hash = ((hash << 5) - hash) + charCode`
followed by `hash = hash & hash`.  `<<` itself truncates to 32 bits; the
intermediate sum is exact in a JS double. -/
def hashStep (h : Int) (c : Char) : Int :=
  toInt32 (toInt32 (h * 32) - h + (c.toNat : Int))

/-- `simpleHash` from `src/js/utils.js`.  The source returns the NUMBER `0`
for the empty string (modelled `none`) and otherwise
`Math.abs(hash).toString(36)` — base-36 rendering is injective, so the token
is modelled by the absolute value itself (`some n`); `===` on tokens agrees
with equality of this model. -/
def simpleHash (s : Str) : Option Nat :=
  if s.length = 0 then none
  else some (s.foldl hashStep 0).natAbs

/-- `xs.join(sep)`. -/
def joinWith (sep : Str) : List Str → Str
  | [] => []
  | [x] => x
  | x :: y :: rest => x ++ sep ++ joinWith sep (y :: rest)

/-! ## Records and state (`src/js/storage.js`, `src/js/logic.js`) -/

structure Prompt where
  id : Str
  title : Str
  content : Str
  tags : List Str
  createdAt : Int
  updatedAt : Int
deriving DecidableEq, Repr

structure State where
  version : Int
  prompts : List Prompt
deriving DecidableEq, Repr

/-- The `data` argument of `createPrompt`/`updatePrompt`/`validatePromptData`
and the items of `batchCreatePrompts`.  `none` is an absent (`undefined`)
field.  (Non-string titles/contents behave like absent ones in every path
modelled here.) -/
structure PromptInput where
  title : Option Str := none
  content : Option Str := none
  tags : Option (List Str) := none
  createdAt : Option Int := none
deriving DecidableEq, Repr

/-- `getPromptById` (`logic.js`): `prompts.find(p => p.id === id)` over the
loaded state. -/
def getPromptById (st : State) (id : Str) : Option Prompt :=
  st.prompts.find? (fun p => p.id == id)

/-- `createPrompt` (`logic.js` 28-53).  `newId` is the generated `uuid()`,
`tNow` the value of `Date.now()` (both calls happen in the same tick),
`saveOk` whether `localStorage.setItem` succeeds inside `setState`.  The
second component is the state persisted after the call. -/
def createPrompt (st : State) (newId : Str) (tNow : Int) (saveOk : Bool)
    (d : PromptInput) : Except Str Prompt × State :=
  match d.title with
  | none => (.error "Title is required".data, st)
  | some t =>
    if jsTrim t = [] then (.error "Title is required".data, st)
    else
      let p : Prompt :=
        { id := newId
          title := jsTrim t
          content := jsTrim (d.content.getD [])
          tags := sanitizeTags (d.tags.getD [])
          createdAt := tNow
          updatedAt := tNow }
      let st2 : State := { version := 1, prompts := st.prompts ++ [p] }
      if saveOk then (.ok p, st2) else (.error "Failed to save prompt".data, st)

/-- `updatePrompt` (`logic.js` 58-91).  Title is re-validated only when
supplied; unsupplied fields are kept; `updatedAt := now()`. -/
def updatePrompt (st : State) (tNow : Int) (saveOk : Bool) (id : Str)
    (d : PromptInput) : Except Str Prompt × State :=
  match List.findIdx? (fun p => p.id == id) st.prompts with
  | none => (.error "Prompt not found".data, st)
  | some i =>
    match st.prompts[i]? with
    | none => (.error "Prompt not found".data, st) -- unreachable: findIdx? is in range
    | some cur =>
      let titleBad : Bool := match d.title with
        | some t => jsTrim t |>.isEmpty
        | none => false
      if titleBad then (.error "Title is required".data, st)
      else
        let p2 : Prompt :=
          { cur with
            title := match d.title with | some t => jsTrim t | none => cur.title
            content := match d.content with | some c => jsTrim c | none => cur.content
            tags := match d.tags with | some ts => sanitizeTags ts | none => cur.tags
            updatedAt := tNow }
        let st2 : State := { version := 1, prompts := st.prompts.set i p2 }
        if saveOk then (.ok p2, st2)
        else (.error "Failed to update prompt".data, st)

/-- `validatePromptData` (`logic.js` 242-274).  All applicable errors are
returned in source order.  (`Tags must be an array` and non-string tag
entries cannot arise in the typed model.) -/
def validatePromptData (d : PromptInput) : List Str :=
  let e1 : List Str := match d.title with
    | none => ["Title is required".data]
    | some t => if jsTrim t = [] then ["Title is required".data] else []
  let e2 : List Str := match d.title with
    | some t =>
      if !t.isEmpty && t.length > 200
      then ["Title must be less than 200 characters".data] else []
    | none => []
  let e3 : List Str := match d.content with
    | some c =>
      if !c.isEmpty && c.length > 50000
      then ["Content must be less than 50,000 characters".data] else []
    | none => []
  let e4 : List Str := match d.tags with
    | some ts =>
      if ts.length > 20 then ["Maximum 20 tags allowed".data]
      else ts.filterMap (fun tg =>
        if tg.length > 50
        then some ("Tag \"".data ++ tg ++ "\" is too long (max 50 characters)".data)
        else none)
    | none => []
  e1 ++ e2 ++ e3 ++ e4

/-! ## Search (`logic.js` 116-142)

`searchPrompts` builds ONE `RegExp` with flags `gi` from the escaped,
lowercased, trimmed query and calls `.test()` on it repeatedly.  Because the
`g` flag is set, `.test` is stateful: on success `lastIndex` is set past the
match, on failure it is reset to `0`, and the next `.test` call starts
searching at `lastIndex`.  The model threads `lastIndex` explicitly.
`escapeRegex` makes the pattern a literal string, so a single `.test` is a
case-insensitive substring search starting at `lastIndex`. -/

/-- First index `i ≥ start` at which `needle` occurs in `hay`. -/
def findFromIdx (hay needle : Str) (start : Nat) : Option Nat :=
  (List.range (hay.length + 1)).find?
    (fun i => decide (start ≤ i) && hasPrefixStr (hay.drop i) needle)

/-- `searchRegex.test(s)` where the regex is the escaped literal `term`
(already lowercased) with flags `gi` and current `lastIndex` `li`.
Returns the boolean result and the new `lastIndex`. -/
def regexTestG (term : Str) (s : Str) (li : Nat) : Bool × Nat :=
  match findFromIdx (toLowerStr s) term li with
  | some i => (true, i + term.length)
  | none => (false, 0)

/-- `prompt.tags.some(tag => searchRegex.test(tag))`, threading the regex
state through the sequence of `.test` calls. -/
def tagsSomeTest (term : Str) (li : Nat) : List Str → Bool × Nat
  | [] => (false, li)
  | t :: ts =>
    match regexTestG term t li with
    | (true, li2) => (true, li2)
    | (false, li2) => tagsSomeTest term li2 ts

/-- The filter predicate body of `searchPrompts` for one prompt: test title
(if truthy), then content (if truthy), then each tag, sharing the one regex
object. -/
def promptTest (term : Str) (li : Nat) (p : Prompt) : Bool × Nat :=
  let step2 := fun (li : Nat) =>
    let step3 := fun (li : Nat) => tagsSomeTest term li p.tags
    if !p.content.isEmpty then
      match regexTestG term p.content li with
      | (true, li2) => (true, li2)
      | (false, li2) => step3 li2
    else step3 li
  if !p.title.isEmpty then
    match regexTestG term p.title li with
    | (true, li2) => (true, li2)
    | (false, li2) => step2 li2
  else step2 li

/-- `prompts.filter(...)` with the shared stateful regex. -/
def filterWithRegexState (term : Str) (li : Nat) : List Prompt → List Prompt
  | [] => []
  | p :: ps =>
    match promptTest term li p with
    | (true, li2) => p :: filterWithRegexState term li2 ps
    | (false, li2) => filterWithRegexState term li2 ps

/-- `searchPrompts` (`logic.js` 116-142). -/
def searchPrompts (prompts : List Prompt) (query : Str) : List Prompt :=
  if query.isEmpty || (jsTrim query).isEmpty then prompts
  else filterWithRegexState (toLowerStr (jsTrim query)) 0 prompts

/-! ## Batch import (`logic.js` 279-341) -/

structure BatchResults where
  created : Nat
  skipped : Nat
  errors : List Str
deriving DecidableEq, Repr

/-- Accumulator for the `forEach` loop of `batchCreatePrompts`:
the (mutated) `state.prompts`, the results record, and the number of
`uuid()` calls consumed so far. -/
structure BatchAcc where
  prompts : List Prompt
  created : Nat
  skipped : Nat
  errors : List Str
  idCtr : Nat
deriving DecidableEq, Repr

/-- The hash input `promptData.title + promptData.content`: JS `+` on an
`undefined` content stringifies it to `"undefined"`. -/
def rawConcat (d : PromptInput) : Str :=
  (d.title.getD []) ++ (match d.content with
    | some c => c
    | none => "undefined".data)

/-- One iteration of the `forEach` in `batchCreatePrompts` (index `idx`). -/
def batchItem (ids : Nat → Str) (tNow : Int) (mode : Str) (idx : Nat)
    (acc : BatchAcc) (d : PromptInput) : BatchAcc :=
  let errs := validatePromptData d
  if !errs.isEmpty then
    { acc with
      errors := acc.errors ++
        ["Prompt ".data ++ natToStr (idx + 1) ++ ": ".data ++ joinWith ", ".data errs]
      skipped := acc.skipped + 1 }
  else
    let isDup : Bool :=
      if mode == "merge".data then
        let contentHash := simpleHash (rawConcat d)
        (acc.prompts.find? (fun existing =>
          simpleHash (existing.title ++ existing.content) == contentHash)).isSome
      else false
    if isDup then { acc with skipped := acc.skipped + 1 }
    else
      let p : Prompt :=
        { id := ids acc.idCtr
          title := jsTrim (d.title.getD [])
          content := match d.content with
            | some c => if !c.isEmpty then jsTrim c else []
            | none => []
          tags := sanitizeTags (d.tags.getD [])
          createdAt := match d.createdAt with
            | some t => if t ≠ 0 then t else tNow -- `promptData.createdAt || now()`
            | none => tNow
          updatedAt := tNow }
      { acc with
        prompts := acc.prompts ++ [p]
        created := acc.created + 1
        idCtr := acc.idCtr + 1 }

def batchLoop (ids : Nat → Str) (tNow : Int) (mode : Str) :
    List PromptInput → Nat → BatchAcc → BatchAcc
  | [], _, acc => acc
  | d :: rest, idx, acc =>
    batchLoop ids tNow mode rest (idx + 1) (batchItem ids tNow mode idx acc d)

/-- `batchCreatePrompts` (`logic.js` 279-341).  Persistence happens once,
after the loop, and only when at least one item was created; the second
component is the persisted state after the call. -/
def batchCreatePrompts (st : State) (ids : Nat → Str) (tNow : Int)
    (saveOk : Bool) (items : List PromptInput) (mode : Str) :
    Except Str BatchResults × State :=
  let start := if mode == "replace".data then [] else st.prompts
  let acc := batchLoop ids tNow mode items 0 ⟨start, 0, 0, [], 0⟩
  if acc.created > 0 then
    if saveOk then (.ok ⟨acc.created, acc.skipped, acc.errors⟩, ⟨1, acc.prompts⟩)
    else (.error "Failed to save imported prompts".data, st)
  else (.ok ⟨acc.created, acc.skipped, acc.errors⟩, st)

/-! ## Preferences, backups and the auto-backup path
(`storage.js` 140-259, `io.js` 419-474, `app.js` 215-249) -/

structure Preferences where
  autoBackupEnabled : Bool
  autoBackupThreshold : Int
  changeCounter : Int
deriving DecidableEq, Repr

/-- The defaults merged in by `getPreferences`. -/
def defaultPreferences : Preferences :=
  { autoBackupEnabled := true, autoBackupThreshold := 10, changeCounter := 0 }

/-- `incrementChangeCounter` (`storage.js` 182-187): read preferences, add
one to `changeCounter`, persist.  (Defined by the source — see the C1
theorem about who calls it.) -/
def incrementChangeCounter (prefs : Preferences) : Preferences :=
  { prefs with changeCounter := prefs.changeCounter + 1 }

/-- `resetChangeCounter` (`storage.js` 192-196). -/
def resetChangeCounter (prefs : Preferences) : Preferences :=
  { prefs with changeCounter := 0 }

structure Backup where
  id : Str
  timestamp : Int
  data : State
deriving DecidableEq, Repr

/-- `saveLocalBackup` (`storage.js` 240-259): `unshift` the new snapshot and
keep `slice(0, 3)`.  `newId`/`tNow` are the generated `uuid()`/`Date.now()`. -/
def saveLocalBackup (backups : List Backup) (newId : Str) (tNow : Int)
    (data : State) : List Backup :=
  (({ id := newId, timestamp := tNow, data := data } : Backup) :: backups).take 3

/-- The whole persisted store seen by the auto-backup path. -/
structure AppStore where
  state : State
  prefs : Preferences
  backups : List Backup
deriving DecidableEq, Repr

/-- `autoBackupMaybe` (`io.js` 433-445) together with `triggerAutoBackup`
(`io.js` 450-474): no-op when disabled; when `changeCounter >=
autoBackupThreshold` it downloads a backup file (external effect, not
modelled), appends the current state to the ring buffer and resets the
counter.  Returns whether a backup was taken. -/
def autoBackupMaybe (s : AppStore) (backupId : Str) (tNow : Int) :
    Bool × AppStore :=
  if !s.prefs.autoBackupEnabled then (false, s)
  else if s.prefs.changeCounter ≥ s.prefs.autoBackupThreshold then
    (true,
      { s with
        backups := saveLocalBackup s.backups backupId tNow s.state
        prefs := resetChangeCounter s.prefs })
  else (false, s)

/-- The create path of `handleSave` in `app.js` (lines 215-249): validate,
`createPrompt`, then `autoBackupMaybe()`.  On a validation or save error the
handler returns/toasts without reaching `autoBackupMaybe`. -/
def appCreate (s : AppStore) (newId backupId : Str) (tNow : Int)
    (d : PromptInput) : AppStore :=
  if !(validatePromptData d).isEmpty then s
  else
    match createPrompt s.state newId tNow true d with
    | (.ok _, st2) => (autoBackupMaybe { s with state := st2 } backupId tNow).2
    | (.error _, st2) => { s with state := st2 }

/-! ## Loose JS values and `migrate` (`storage.js` 73-109)

`migrate` accepts any previously-persisted JSON value, so its input is
modelled by a JSON-like type.  `null` also stands for `undefined` (both are
falsy and both make the `!data || typeof data !== 'object'` guard take the
default branch).  Fresh `uuid()` results are supplied by `ids : Nat → Str`
(consumed in call order) and `Date.now()` by `tNow`. -/

inductive JVal where
  | null
  | bool (b : Bool)
  | num (n : Int)
  | str (s : Str)
  | arr (elems : List JVal)
  | obj (fields : List (Str × JVal))

/-- JS truthiness. -/
def JVal.truthy : JVal → Bool
  | .null => false
  | .bool b => b
  | .num n => n != 0
  | .str s => !s.isEmpty
  | .arr _ => true
  | .obj _ => true

/-- `typeof v === 'object'` (true for objects, arrays and `null`). -/
def JVal.isObjType : JVal → Bool
  | .null => true
  | .arr _ => true
  | .obj _ => true
  | _ => false

/-- First binding for a key in an object's field list. -/
def lookupF (fields : List (Str × JVal)) (k : Str) : Option JVal :=
  (fields.find? (fun e => e.1 == k)).map (·.2)

/-- JS property assignment on an object: replace the value in place when the
key exists (insertion order is kept), else append the new key. -/
def setField : List (Str × JVal) → Str → JVal → List (Str × JVal)
  | [], k, v => [(k, v)]
  | (k', v') :: rest, k, v =>
    if k' == k then (k, v) :: rest else (k', v') :: setField rest k v

/-- Own enumerable properties of an array: its indices, as string keys. -/
def indexedFields (i : Nat) : List JVal → List (Str × JVal)
  | [] => []
  | x :: xs => (natToStr i, x) :: indexedFields (i + 1) xs

/-- Property read `v[k]` for the object-typed values `migrate` reaches. -/
def JVal.getProp : JVal → Str → Option JVal
  | .obj fs, k => lookupF fs k
  | .arr xs, k => lookupF (indexedFields 0 xs) k
  | _, _ => none

/-- Fields copied by `{ ...data }` for a truthy object-typed value. -/
def spreadFields : JVal → List (Str × JVal)
  | .obj fs => fs
  | .arr xs => indexedFields 0 xs
  | _ => []

/-- `a || b` where `a` is a possibly-missing property value. -/
def jsOr (v? : Option JVal) (fb : JVal) : JVal :=
  match v? with
  | some v => if v.truthy then v else fb
  | none => fb

def kId : Str := "id".data
def kTitle : Str := "title".data
def kContent : Str := "content".data
def kTags : Str := "tags".data
def kCreatedAt : Str := "createdAt".data
def kUpdatedAt : Str := "updatedAt".data
def kPrompts : Str := "prompts".data
def kVersion : Str := "version".data

/-- `prompt.id || uuid()`: the repaired id and the count of `uuid()` calls
consumed (one exactly when the stored id is falsy or absent). -/
def repairId (ids : Nat → Str) (v? : Option JVal) (ctr : Nat) : JVal × Nat :=
  match v? with
  | some v => if v.truthy then (v, ctr) else (JVal.str (ids ctr), ctr + 1)
  | none => (JVal.str (ids ctr), ctr + 1)

/-- `Array.isArray(prompt.tags) ? prompt.tags : []`. -/
def repairTags (v? : Option JVal) : JVal :=
  match v? with
  | some (JVal.arr xs) => JVal.arr xs
  | _ => JVal.arr []

/-- The per-record repair of `migrate` (`storage.js` 97-104); `ctr` indexes
the next unused `uuid()` value, consumed only when the stored `id` is falsy. -/
def repairPrompt (ids : Nat → Str) (tNow : Int) (p : JVal) (ctr : Nat) :
    JVal × Nat :=
  (JVal.obj [(kId, (repairId ids (p.getProp kId) ctr).1),
    (kTitle, jsOr (p.getProp kTitle) (JVal.str "Untitled".data)),
    (kContent, jsOr (p.getProp kContent) (JVal.str [])),
    (kTags, repairTags (p.getProp kTags)),
    (kCreatedAt, jsOr (p.getProp kCreatedAt) (JVal.num tNow)),
    (kUpdatedAt, jsOr (p.getProp kUpdatedAt) (JVal.num tNow))],
   (repairId ids (p.getProp kId) ctr).2)

/-- `.map` of the repair over the filtered prompts, threading the `uuid()`
counter. -/
def repairAll (ids : Nat → Str) (tNow : Int) (ctr : Nat) :
    List JVal → List JVal
  | [] => []
  | p :: ps =>
    (repairPrompt ids tNow p ctr).1
      :: repairAll ids tNow (repairPrompt ids tNow p ctr).2 ps

/-- The fresh default state `{ version: 1, prompts: [] }`. -/
def defaultStateJ : JVal :=
  JVal.obj [(kVersion, JVal.num 1), (kPrompts, JVal.arr [])]

/-- The cleaned prompts list of `migrate`: the stored `prompts` property
when it is an array (else `[]`), with non-object entries dropped and every
record repaired. -/
def migratePromptsOf (ids : Nat → Str) (tNow : Int) (x : JVal) : List JVal :=
  repairAll ids tNow 0
    ((match lookupF (spreadFields x) kPrompts with
      | some (JVal.arr xs) => xs
      | _ => []).filter (fun p => p.truthy && p.isObjType))

/-- The non-default branch of `migrate`: spread the stored object, replace
`prompts` with the filtered/repaired list, stamp `version := 1`. -/
def migrateBody (ids : Nat → Str) (tNow : Int) (x : JVal) : JVal :=
  JVal.obj (setField (setField (spreadFields x) kPrompts
      (JVal.arr (migratePromptsOf ids tNow x)))
    kVersion (JVal.num 1))

/-- `migrate` (`storage.js` 73-109). -/
def migrate (ids : Nat → Str) (tNow : Int) (x : JVal) : JVal :=
  if !(x.truthy && x.isObjType) then defaultStateJ
  else migrateBody ids tNow x

/-! ## Template engine (`utils.js` 747-760 and 875-912)

`applyPlaceholders` rewrites the text with
`text.replace(/\{\{([^}|]+)(\|([^}]*))?\}\}/g, cb)`.  The regex engine scans
left to right: at each position it tries to match `{{`, a non-empty greedy
run of characters other than `}` and `|` (the name), optionally `|` followed
by a greedy run of characters other than `}` (the default), then `}}`; since
the character classes exclude the only continuation characters, the greedy
runs admit no backtracking and the match at a position is unique.  On a
match the engine continues after it, otherwise it advances one character. -/

/-- A character allowed inside a placeholder name (`[^}|]`). -/
def nameChar (c : Char) : Bool := !(c == '}' || c == '|')

/-- Attempt the placeholder regex match anchored at the start of `s`.
Returns the name, the optional default, and the text after the match. -/
def tryPlaceholder (s : Str) : Option (Str × Option Str × Str) :=
  match s with
  | c1 :: c2 :: rest =>
    if c1 = '{' ∧ c2 = '{' then
      let name := rest.takeWhile nameChar
      let rest1 := rest.dropWhile nameChar
      if name = [] then none
      else
        match rest1 with
        | e1 :: tail1 =>
          if e1 = '|' then
            let dflt := tail1.takeWhile (fun c => !(c == '}'))
            let rest3 := tail1.dropWhile (fun c => !(c == '}'))
            match rest3 with
            | f1 :: f2 :: rem =>
              if f1 = '}' ∧ f2 = '}' then some (name, some dflt, rem) else none
            | _ => none
          else
            match tail1 with
            | e2 :: rem => if e1 = '}' ∧ e2 = '}' then some (name, none, rem) else none
            | [] => none
        | [] => none
    else none
  | _ => none

theorem dropWhile_length_le (p : Char → Bool) (l : Str) :
    (l.dropWhile p).length ≤ l.length := by
  induction l with
  | nil => simp
  | cons a t ih =>
    simp only [List.dropWhile]
    split
    · exact Nat.le_succ_of_le ih
    · exact Nat.le_refl _

theorem tryPlaceholder_length {s n : Str} {d? : Option Str} {rem : Str}
    (h : tryPlaceholder s = some (n, d?, rem)) : rem.length < s.length := by
  match s with
  | [] => simp [tryPlaceholder] at h
  | [c] => simp [tryPlaceholder] at h
  | c1 :: c2 :: rest =>
    have hdw := dropWhile_length_le nameChar rest
    simp only [tryPlaceholder] at h
    split at h
    · split at h
      · exact absurd h (by simp)
      · split at h
        next e1 tail1 heq1 =>
          have htail1 : tail1.length < rest.length := by
            have := congrArg List.length heq1
            simp at this
            omega
          split at h
          · have hdw2 := dropWhile_length_le (fun c => !(c == '}')) tail1
            split at h
            next f1 f2 rem0 heq3 =>
              have hrem0 : rem0.length + 2 ≤ tail1.length := by
                have := congrArg List.length heq3
                simp at this
                omega
              split at h
              · simp only [Option.some.injEq, Prod.mk.injEq] at h
                obtain ⟨-, -, h3⟩ := h
                subst h3
                simp only [List.length_cons]
                omega
              · exact absurd h (by simp)
            next => exact absurd h (by simp)
          · split at h
            next heq2 =>
              rename_i e2 rem0
              split at h
              · simp only [Option.some.injEq, Prod.mk.injEq] at h
                obtain ⟨-, -, h3⟩ := h
                subst h3
                have := congrArg List.length heq1
                simp at this
                simp only [List.length_cons]
                omega
              · exact absurd h (by simp)
            next => exact absurd h (by simp)
        next => exact absurd h (by simp)
    · exact absurd h (by simp)

/-- The verbatim matched text `{{name}}` / `{{name|default}}` handed to the
replacement callback (and kept in place when no value applies). -/
def origText (name : Str) (d? : Option Str) : Str :=
  '{' :: '{' :: (name ++ (match d? with | some dv => '|' :: dv | none => [])
    ++ ['}', '}'])

/-- `m.hasOwnProperty(k) ? some m[k] : none`. -/
def lookupV (m : AList) (k : Str) : Option Str :=
  (m.find? (fun e => e.1 == k)).map (·.2)

/-- JS property assignment on a string map (replace in place or append). -/
def setEntry : AList → Str → Str → AList
  | [], k, v => [(k, v)]
  | (k', v') :: rest, k, v =>
    if k' == k then (k, v) :: rest else (k', v') :: setEntry rest k v

/-- The replacement callback of `applyPlaceholders` for one occurrence:
the replacement text together with the names (if any) recorded as missing.
A present but empty value falls through to the default, then to keeping the
original text and recording the trimmed name. -/
def substMiss (av : AList) (name : Str) (d? : Option Str) : Str × List Str :=
  let tn := jsTrim name
  let fb : Str × List Str := match d? with
    | some dv => (dv, [])
    | none => (origText name d?, [tn])
  match lookupV av tn with
  | some v => if v = [] then fb else (v, [])
  | none => fb

/-- The `text.replace(regex, cb)` loop: try the anchored match at the
current position; on success emit the replacement and continue after the
match, otherwise emit one character and advance. -/
def replLoop (av : AList) (s : Str) : Str × List Str :=
  match htp : tryPlaceholder s with
  | some (name, d?, rem) =>
    let sm := substMiss av name d?
    let r := replLoop av rem
    (sm.1 ++ r.1, sm.2 ++ r.2)
  | none =>
    match s with
    | [] => ([], [])
    | ch :: rest =>
      let r := replLoop av rest
      (ch :: r.1, r.2)
termination_by s.length
decreasing_by
  · exact tryPlaceholder_length htp
  · simp

structure Clock where
  year : Nat
  month : Nat -- 1-based, as produced by `getMonth() + 1`
  day : Nat
  hour : Nat
  minute : Nat
deriving DecidableEq, Repr

/-- `String(x).padStart(2, '0')`. -/
def padStart2 (s : Str) : Str :=
  if s.length ≥ 2 then s else List.replicate (2 - s.length) '0' ++ s

/-- `formatDateTime` (`utils.js` 747-760): `YYYY-MM-DD`, optionally followed
by ` HH:MM`. -/
def formatDateTime (c : Clock) (includeTime : Bool) : Str :=
  let core := natToStr c.year ++ "-".data ++ padStart2 (natToStr c.month)
    ++ "-".data ++ padStart2 (natToStr c.day)
  if !includeTime then core
  else core ++ " ".data ++ padStart2 (natToStr c.hour) ++ ":".data
    ++ padStart2 (natToStr c.minute)

/-- The literal marker `text.includes('{{today}}')` looks for. -/
def markerToday : Str := "\x7b\x7btoday\x7d\x7d".data

/-- The literal marker `text.includes('{{now}}')` looks for. -/
def markerNow : Str := "\x7b\x7bnow\x7d\x7d".data

/-- The `autoValues` object of `applyPlaceholders`: a copy of `values` with
`today`/`now` overwritten by the formatted current date/date-time whenever
the corresponding literal marker occurs in the text. -/
def autoValues (c : Clock) (text : Str) (values : AList) : AList :=
  let av1 := if strIncludes text markerToday
    then setEntry values "today".data (formatDateTime c false) else values
  if strIncludes text markerNow
  then setEntry av1 "now".data (formatDateTime c true) else av1

structure ApplyResult where
  text : Str
  missing : List Str
deriving DecidableEq, Repr

/-- `applyPlaceholders` (`utils.js` 875-912).  The `!text` guard returns
`{ text: text || '', missing: [] }`; afterwards the stateless `replace`
loop runs with the auto-augmented values and the missing list is
de-duplicated via `[...new Set(missing)]`. -/
def applyPlaceholders (c : Clock) (text : Str) (values : AList) :
    ApplyResult :=
  if text.isEmpty then { text := [], missing := [] }
  else
    let av := autoValues c text values
    let r := replLoop av text
    { text := r.1, missing := dedupFirst r.2 }

/-- Leftmost placeholder occurrence in `s`, as the specification describes
the scan: the literal prefix before the occurrence, its name and optional
default, and the rest of the text after it.  `none` when no well-formed
occurrence exists (malformed/unterminated markup). -/
def findPlaceholder : Str → Option (Str × Str × Option Str × Str)
  | [] => none
  | ch :: rest =>
    match tryPlaceholder (ch :: rest) with
    | some (name, d?, rem) => some ([], name, d?, rem)
    | none =>
      match findPlaceholder rest with
      | some (pre, name, d?, rem) => some (ch :: pre, name, d?, rem)
      | none => none

theorem findPlaceholder_length {s pre n : Str} {d? : Option Str} {rem : Str}
    (h : findPlaceholder s = some (pre, n, d?, rem)) : rem.length < s.length := by
  induction s generalizing pre with
  | nil => simp [findPlaceholder] at h
  | cons ch rest ih =>
    simp only [findPlaceholder] at h
    split at h
    next heq =>
      simp only [Option.some.injEq, Prod.mk.injEq] at h
      obtain ⟨-, -, -, h4⟩ := h
      subst h4
      exact tryPlaceholder_length heq
    next =>
      split at h
      next pre2 name2 d2 rem2 heq2 =>
        simp only [Option.some.injEq, Prod.mk.injEq] at h
        obtain ⟨-, h2, h3, h4⟩ := h
        subst h2; subst h3; subst h4
        have := ih heq2
        simp only [List.length_cons]
        omega
      next => exact absurd h (by simp)

/-- Substitution as the specification words it: rewrite each placeholder
occurrence in left-to-right order with `substMiss`, leaving the literal text
between occurrences untouched. -/
def specSubst (vals : AList) (s : Str) : Str × List Str :=
  match hfp : findPlaceholder s with
  | none => (s, [])
  | some (pre, name, d?, rem) =>
    let sm := substMiss vals name d?
    let r := specSubst vals rem
    (pre ++ sm.1 ++ r.1, sm.2 ++ r.2)
termination_by s.length
decreasing_by exact findPlaceholder_length hfp

/-- `applyPlaceholders` as described by the specification (amended with the
auto-value override): empty text is returned untouched; otherwise every
occurrence is rewritten left to right against the effective values
(`values` with `today`/`now` overridden when their literal markers occur),
and the missing list is de-duplicated keeping first occurrences. -/
def specApplyPlaceholders (c : Clock) (text : Str) (values : AList) :
    ApplyResult :=
  if text.isEmpty then { text := [], missing := [] }
  else
    let av := autoValues c text values
    let r := specSubst av text
    { text := r.1, missing := dedupFirst r.2 }

/-- A backup record built from one `saveLocalBackup` call's arguments
(`uuid()`, `Date.now()`, snapshot). -/
def mkBackup (call : Str × Int × State) : Backup :=
  { id := call.1, timestamp := call.2.1, data := call.2.2 }

/-- Run a sequence of `saveLocalBackup` calls (in call order) starting from
an empty persisted backup list. -/
def runBackups (calls : List (Str × Int × State)) : List Backup :=
  calls.foldl (fun acc call => saveLocalBackup acc call.1 call.2.1 call.2.2) []

/-! ## General lemmas -/

theorem replLoop_match {av : AList} {s n : Str} {d? : Option Str} {rem : Str}
    (h : tryPlaceholder s = some (n, d?, rem)) :
    replLoop av s = ((substMiss av n d?).1 ++ (replLoop av rem).1,
      (substMiss av n d?).2 ++ (replLoop av rem).2) := by
  rw [replLoop]
  split
  next name2 d2 rem2 heq =>
    rw [h] at heq
    simp only [Option.some.injEq, Prod.mk.injEq] at heq
    obtain ⟨h1, h2, h3⟩ := heq
    subst h1; subst h2; subst h3
    rfl
  next heq => rw [h] at heq; exact absurd heq (by simp)

theorem replLoop_nil (av : AList) : replLoop av [] = ([], []) := by
  rw [replLoop]
  rfl

theorem replLoop_nomatch {av : AList} {ch : Char} {rest : Str}
    (h : tryPlaceholder (ch :: rest) = none) :
    replLoop av (ch :: rest) = (ch :: (replLoop av rest).1, (replLoop av rest).2) := by
  rw [replLoop]
  split
  next name2 d2 rem2 heq => rw [h] at heq; exact absurd heq (by simp)
  next heq => rfl

theorem specSubst_some {vals : AList} {s pre n : Str} {d? : Option Str} {rem : Str}
    (h : findPlaceholder s = some (pre, n, d?, rem)) :
    specSubst vals s = (pre ++ (substMiss vals n d?).1 ++ (specSubst vals rem).1,
      (substMiss vals n d?).2 ++ (specSubst vals rem).2) := by
  rw [specSubst]
  split
  next heq => rw [h] at heq; exact absurd heq (by simp)
  next pre2 name2 d2 rem2 heq =>
    rw [h] at heq
    simp only [Option.some.injEq, Prod.mk.injEq] at heq
    obtain ⟨h1, h2, h3, h4⟩ := heq
    subst h1; subst h2; subst h3; subst h4
    rfl

theorem specSubst_none {vals : AList} {s : Str}
    (h : findPlaceholder s = none) : specSubst vals s = (s, []) := by
  rw [specSubst]
  split
  next heq => rfl
  next pre2 name2 d2 rem2 heq => rw [h] at heq; exact absurd heq (by simp)

/-- The regex-replace loop computes exactly the specification's
leftmost-occurrence rewriting. -/
theorem replLoop_eq_specSubst (av : AList) (s : Str) :
    replLoop av s = specSubst av s := by
  have H : ∀ (n : Nat) (s : Str), s.length ≤ n → replLoop av s = specSubst av s := by
    intro n
    induction n with
    | zero =>
      intro s hs
      have hnil : s = [] := List.eq_nil_of_length_eq_zero (Nat.le_zero.mp hs)
      subst hnil
      rw [replLoop_nil, specSubst_none (show findPlaceholder [] = none from rfl)]
    | succ n ih =>
      intro s hs
      cases htp : tryPlaceholder s with
      | some pl =>
        obtain ⟨name, d?, rem⟩ := pl
        have hlen := tryPlaceholder_length htp
        have hfp : findPlaceholder s = some ([], name, d?, rem) := by
          cases s with
          | nil => simp [tryPlaceholder] at htp
          | cons ch rest => simp [findPlaceholder, htp]
        rw [replLoop_match htp, specSubst_some hfp,
          ih rem (by omega)]
        simp
      | none =>
        cases s with
        | nil => rw [replLoop_nil, specSubst_none (show findPlaceholder [] = none from rfl)]
        | cons ch rest =>
          rw [replLoop_nomatch htp,
            ih rest (by simp only [List.length_cons] at hs; omega)]
          cases hfr : findPlaceholder rest with
          | none =>
            rw [specSubst_none hfr,
              specSubst_none (by simp [findPlaceholder, htp, hfr])]
          | some q =>
            obtain ⟨pre, nm, dd, rm⟩ := q
            have hfc : findPlaceholder (ch :: rest) = some (ch :: pre, nm, dd, rm) := by
              simp [findPlaceholder, htp, hfr]
            rw [specSubst_some hfr, specSubst_some hfc]
            simp
  exact H s.length s (Nat.le_refl _)

/-- `applyPlaceholders` refines its specification-side description. -/
theorem applyPlaceholders_eq_spec (c : Clock) (text : Str) (values : AList) :
    applyPlaceholders c text values = specApplyPlaceholders c text values := by
  unfold applyPlaceholders specApplyPlaceholders
  simp only [replLoop_eq_specSubst]

theorem take3_append_take3 {α : Type} (L t : List α) :
    (L ++ t.take 3).take 3 = (L ++ t).take 3 := by
  rw [List.take_append_eq_append_take, List.take_append_eq_append_take,
    List.take_take]
  congr 1
  have hm : min (3 - L.length) 3 = 3 - L.length :=
    Nat.min_eq_left (Nat.sub_le 3 L.length)
  rw [hm]

theorem runBackups_foldl (calls : List (Str × Int × State)) :
    ∀ acc : List Backup, acc.length ≤ 3 →
      calls.foldl (fun a call => saveLocalBackup a call.1 call.2.1 call.2.2) acc
        = ((calls.map mkBackup).reverse ++ acc).take 3 := by
  induction calls with
  | nil =>
    intro acc hacc
    simp [List.take_of_length_le hacc]
  | cons c cs ih =>
    intro acc hacc
    have step : saveLocalBackup acc c.1 c.2.1 c.2.2 = (mkBackup c :: acc).take 3 := rfl
    rw [List.foldl_cons, step, ih _ (by simp [List.length_take])]
    rw [take3_append_take3]
    simp [mkBackup, List.append_assoc]

theorem find?_append_of_none {p : Prompt → Bool} {l1 : List Prompt}
    (h : ∀ x ∈ l1, p x = false) (l2 : List Prompt) :
    List.find? p (l1 ++ l2) = List.find? p l2 := by
  induction l1 with
  | nil => simp
  | cons a t ih =>
    simp only [List.cons_append, List.find?]
    rw [h a (by simp)]
    exact ih (fun x hx => h x (by simp [hx]))

/-! ## Claim theorems -/

/-- **C1** (code bug).  The claim says every mutating Record Engine
operation increments `Preferences.changeCounter` and that, with
`autoBackupThreshold = 2`, the second of two creates triggers a backup and
resets the counter.  In the source, `incrementChangeCounter` exists
(`storage.js` 182-187, first conjunct: it would add one) but no mutating
path ever calls it; `app.js` only calls `autoBackupMaybe()` after each
mutation.  Evaluating the wired-up create path at the claim's own scenario
(threshold 2, two successful creates): the counter never moves, the ring
buffer stays empty — no backup is taken — even though both prompts were
stored. -/
theorem autoBackup_counter_never_incremented :
    (incrementChangeCounter ⟨true, 2, 0⟩).changeCounter = 1
    ∧ (appCreate (appCreate ⟨⟨1, []⟩, ⟨true, 2, 0⟩, []⟩ "id1".data "b1".data 100
        { title := some "A".data })
        "id2".data "b2".data 200 { title := some "B".data }).prefs.changeCounter = 0
    ∧ (appCreate (appCreate ⟨⟨1, []⟩, ⟨true, 2, 0⟩, []⟩ "id1".data "b1".data 100
        { title := some "A".data })
        "id2".data "b2".data 200 { title := some "B".data }).backups = []
    ∧ (appCreate (appCreate ⟨⟨1, []⟩, ⟨true, 2, 0⟩, []⟩ "id1".data "b1".data 100
        { title := some "A".data })
        "id2".data "b2".data 200 { title := some "B".data }).state.prompts.length = 2 := by
  decide

/-- **C2** (code bug).  The claim says `searchPrompts` keeps exactly the
records whose title/content/tag contains the trimmed query case-insensitively
(and returns the input unchanged for a blank query).  The source reuses one
`RegExp` with the `g` flag across all `.test()` calls, so `lastIndex`
persists between records: with two records both titled `"ab"` and query
`"a"`, the second record's title does contain the query (first conjunct) yet
only the first record is returned (second conjunct).  The blank-query part
of the claim does hold (third conjunct). -/
theorem searchPrompts_drops_matching_record :
    strIncludes (toLowerStr "ab".data) (toLowerStr (jsTrim "a".data)) = true
    ∧ searchPrompts [⟨"1".data, "ab".data, [], [], 1, 1⟩, ⟨"2".data, "ab".data, [], [], 1, 1⟩]
        "a".data = [⟨"1".data, "ab".data, [], [], 1, 1⟩]
    ∧ searchPrompts [⟨"1".data, "ab".data, [], [], 1, 1⟩, ⟨"2".data, "ab".data, [], [], 1, 1⟩]
        [] = [⟨"1".data, "ab".data, [], [], 1, 1⟩, ⟨"2".data, "ab".data, [], [], 1, 1⟩] := by
  decide

/-- **C9** (confirmed).  Starting from an empty backup list, after the calls
in `calls` (in call order) the persisted ring buffer holds
`min 3 (number of calls)` entries and equals the last three snapshots
newest-first: it is the reversed call list truncated to three, so the most
recent call's backup sits at index 0. -/
theorem saveLocalBackup_ring_buffer (calls : List (Str × Int × State)) :
    (runBackups calls).length = min 3 calls.length
    ∧ runBackups calls = ((calls.map mkBackup).reverse).take 3 := by
  have h := runBackups_foldl calls [] (by simp)
  constructor
  · show (runBackups calls).length = _
    rw [runBackups, h]
    simp
  · show runBackups calls = _
    rw [runBackups, h]
    simp

/-- **C4** counterexample.  A 201-character title is invalid under the
Validator rules (`validatePromptData` reports the length error), yet
`createPrompt` succeeds on it: `createPrompt` only checks
missing/non-string/blank-after-trim and never the 200-character limit, so
the claim "fails ... whenever the supplied title is ... invalid under the
Validator rules (... at most 200 characters)" is false at this input. -/
theorem createPrompt_long_title_counterexample :
    (createPrompt ⟨1, []⟩ "id1".data 5 true
      { title := some (List.replicate 201 'a') }).1.isOk = true
    ∧ validatePromptData { title := some (List.replicate 201 'a') }
      = ["Title must be less than 200 characters".data] := by
  decide

/-- **C4** (corrected).  `createPrompt` fails with the validation error
`"Title is required"` exactly when the title is missing or blank after
trimming (the 200-character limit is NOT enforced by `createPrompt`); with a
present, non-blank title it fails with the persistence error
`"Failed to save prompt"` when the store write fails; and in every failure
case the persisted state is unchanged. -/
theorem createPrompt_failure_amended (st : State) (d : PromptInput)
    (newId : Str) (tNow : Int) (saveOk : Bool) :
    ((d.title = none ∨ jsTrim (d.title.getD []) = []) →
      createPrompt st newId tNow saveOk d = (.error "Title is required".data, st))
    ∧ (∀ t : Str, d.title = some t → jsTrim t ≠ [] → saveOk = false →
      createPrompt st newId tNow saveOk d = (.error "Failed to save prompt".data, st))
    ∧ ((createPrompt st newId tNow saveOk d).1.isOk = false →
      (createPrompt st newId tNow saveOk d).2 = st) := by
  refine ⟨?_, ?_, ?_⟩
  · intro h
    cases hd : d.title with
    | none => simp [createPrompt, hd]
    | some t =>
      have htr : jsTrim t = [] := by
        rcases h with h | h
        · rw [hd] at h; exact absurd h (by simp)
        · rw [hd] at h; simpa using h
      simp [createPrompt, hd, htr]
  · intro t ht hv hs
    subst hs
    simp [createPrompt, ht, hv]
  · intro h
    cases hd : d.title with
    | none => simp [createPrompt, hd]
    | some t =>
      by_cases htr : jsTrim t = []
      · simp [createPrompt, hd, htr]
      · cases hs : saveOk with
        | false => simp [createPrompt, hd, htr, hs]
        | true =>
          subst hs
          simp [createPrompt, hd, htr, Except.isOk, Except.toBool] at h

/-- Witness for C4: a failing save with a valid title leaves the persisted
state unchanged and reports the persistence error. -/
theorem createPrompt_failure_amended_witness :
    createPrompt ⟨1, []⟩ "id1".data 5 false { title := some "Hi".data }
      = (.error "Failed to save prompt".data, ⟨1, []⟩) :=
  (createPrompt_failure_amended ⟨1, []⟩ { title := some "Hi".data }
    "id1".data 5 false).2.1 "Hi".data rfl (by decide) rfl

/-- **C5** counterexample.  The input `{ title: "a ", content: "", tags: [] }`
is valid under the Validator rules (first conjunct), but create-then-read
returns a record whose title is the TRIMMED `"a"`, not the input's `"a "`:
the claim "yields a record whose title ... equal[s] those of the input" is
false at this input. -/
theorem create_read_untrimmed_counterexample :
    validatePromptData { title := some "a ".data, content := some [], tags := some [] } = []
    ∧ getPromptById (createPrompt ⟨1, []⟩ "id1".data 5 true
        { title := some "a ".data, content := some [], tags := some [] }).2 "id1".data
      = some ⟨"id1".data, "a".data, [], [], 5, 5⟩
    ∧ ("a".data : Str) ≠ "a ".data := by
  decide

/-- **C5** (corrected).  For every input with a present title that is
non-blank after trimming (in particular every Validator-valid input),
`createPrompt` followed by `getPromptById` on the fresh id yields the
record with the NORMALISED fields — `title.trim()`, `content.trim()`
(`''` when absent), `sanitizeTags(tags)` (`[]` when absent) — and with
`createdAt = updatedAt` (both are the creation time `tNow`).  When the input
is already normalised these coincide with the input's fields. -/
theorem create_then_read_amended (st : State) (d : PromptInput)
    (t newId : Str) (tNow : Int)
    (ht : d.title = some t) (hv : jsTrim t ≠ [])
    (hfresh : ∀ q ∈ st.prompts, q.id ≠ newId) :
    getPromptById (createPrompt st newId tNow true d).2 newId
      = some { id := newId, title := jsTrim t,
               content := jsTrim (d.content.getD []),
               tags := sanitizeTags (d.tags.getD []),
               createdAt := tNow, updatedAt := tNow } := by
  simp only [createPrompt, ht]
  rw [if_neg hv]
  simp only [if_pos trivial, getPromptById]
  rw [find?_append_of_none (fun x hx => beq_eq_false_iff_ne.mpr (hfresh x hx))]
  simp

/-- Witness for C5 at a concrete unnormalised input. -/
theorem create_then_read_amended_witness :
    getPromptById (createPrompt ⟨1, []⟩ "id9".data 7 true
      { title := some " Hi ".data, content := some " c ".data,
        tags := some ["T".data] }).2 "id9".data
    = some { id := "id9".data, title := jsTrim " Hi ".data,
             content := jsTrim " c ".data, tags := sanitizeTags ["T".data],
             createdAt := 7, updatedAt := 7 } :=
  create_then_read_amended ⟨1, []⟩
    { title := some " Hi ".data, content := some " c ".data, tags := some ["T".data] }
    " Hi ".data "id9".data 7 rfl (by decide) (by simp)

/-- **C10** (confirmed).  For a record present in the collection (found at
index `i`) and a partial update whose supplied title (if any) is non-blank,
`updatePrompt` returns a record with the same `id` and `createdAt`, replaces
only the supplied fields (normalising them the way the source does), sets
`updatedAt` to the current time — not earlier than its previous value when
the clock has not gone backwards — and leaves every other record unchanged. -/
theorem updatePrompt_frame (st : State) (id : Str) (d : PromptInput)
    (tNow : Int) (i : Nat) (cur : Prompt)
    (hfind : List.findIdx? (fun p => p.id == id) st.prompts = some i)
    (hget : st.prompts[i]? = some cur)
    (htitle : ∀ t, d.title = some t → jsTrim t ≠ [])
    (hmono : cur.updatedAt ≤ tNow) :
    ∃ p2 : Prompt,
      updatePrompt st tNow true id d = (.ok p2, ⟨1, st.prompts.set i p2⟩)
      ∧ p2.id = cur.id ∧ p2.createdAt = cur.createdAt
      ∧ p2.title = (match d.title with | some t => jsTrim t | none => cur.title)
      ∧ p2.content = (match d.content with | some c => jsTrim c | none => cur.content)
      ∧ p2.tags = (match d.tags with | some ts => sanitizeTags ts | none => cur.tags)
      ∧ p2.updatedAt = tNow
      ∧ cur.updatedAt ≤ p2.updatedAt
      ∧ (∀ j, j ≠ i → (st.prompts.set i p2)[j]? = st.prompts[j]?) := by
  have htb : (match d.title with
      | some t => (jsTrim t).isEmpty
      | none => false) = false := by
    cases hd : d.title with
    | none => rfl
    | some t =>
      have := htitle t hd
      simpa using this
  refine ⟨{ cur with
      title := match d.title with | some t => jsTrim t | none => cur.title
      content := match d.content with | some c => jsTrim c | none => cur.content
      tags := match d.tags with | some ts => sanitizeTags ts | none => cur.tags
      updatedAt := tNow }, ?_, rfl, rfl, rfl, rfl, rfl, rfl, hmono, ?_⟩
  · simp only [updatePrompt, hfind, hget, htb]
    rfl
  · intro j hj
    exact List.getElem?_set_ne (fun hij => hj hij.symm)

/-- Witness for C10: update only the content of the single stored record. -/
theorem updatePrompt_frame_witness :
    ∃ p2 : Prompt,
      updatePrompt ⟨1, [⟨"a".data, "T".data, "old".data, [], 1, 2⟩]⟩ 9 true "a".data
        { content := some "new".data } = (.ok p2, ⟨1, [⟨"a".data, "T".data, "old".data, [], 1, 2⟩].set 0 p2⟩)
      ∧ p2.id = "a".data ∧ p2.createdAt = 1
      ∧ p2.title = "T".data
      ∧ p2.content = jsTrim "new".data
      ∧ p2.tags = ([] : List Str)
      ∧ p2.updatedAt = 9
      ∧ (2 : Int) ≤ p2.updatedAt
      ∧ (∀ j, j ≠ 0 → ([⟨"a".data, "T".data, "old".data, [], 1, 2⟩].set 0 p2)[j]?
          = [(⟨"a".data, "T".data, "old".data, [], 1, 2⟩ : Prompt)][j]?) := by
  obtain ⟨p2, h1, h2, h3, h4, h5, h6, h7, h8, h9⟩ :=
    updatePrompt_frame ⟨1, [⟨"a".data, "T".data, "old".data, [], 1, 2⟩]⟩ "a".data
      { content := some "new".data } 9 0 ⟨"a".data, "T".data, "old".data, [], 1, 2⟩
      (by decide) (by decide) (by intro t ht; simp at ht) (by decide)
  exact ⟨p2, h1, h2, h3, h4, h5, h6, h7, h8, h9⟩

/-- **C3** counterexample.  The pair `{ title: "a ", content: "" }` (note
the trailing space) is Validator-valid, yet importing it twice in `merge`
mode into an empty collection creates BOTH copies (`created = 2`, two stored
records) instead of the claimed `created = 1, skipped = 1`: the duplicate
check hashes the incoming item's RAW `title + content` but stored records
hold the trimmed title, so the fingerprints differ. -/
theorem batch_merge_untrimmed_dup_counterexample :
    validatePromptData { title := some "a ".data, content := some ([] : Str) } = []
    ∧ (batchCreatePrompts ⟨1, []⟩ natToStr 7 true
        [{ title := some "a ".data, content := some [] },
         { title := some "a ".data, content := some [] }] "merge".data).1
      = .ok ⟨2, 0, []⟩
    ∧ (batchCreatePrompts ⟨1, []⟩ natToStr 7 true
        [{ title := some "a ".data, content := some [] },
         { title := some "a ".data, content := some [] }] "merge".data).2.prompts.length = 2 := by
  exact ⟨rfl, rfl, rfl⟩

/-- **C3** (corrected).  For every `{title, content}` pair that passes
validation AND is unchanged by trimming, importing it twice in `merge` mode
against an empty collection yields exactly one stored record
(`created = 1, skipped = 1`), and in `replace` mode the resulting stored
collection consists exactly of the records created from the final import's
(two valid) items, whatever the previous collection was. -/
theorem batch_merge_dedup_amended (st : State) (t c : Str) (ids : Nat → Str)
    (tNow : Int)
    (hval : validatePromptData { title := some t, content := some c } = [])
    (ht : jsTrim t = t) (hc : jsTrim c = c) (hempty : st.prompts = []) :
    (batchCreatePrompts st ids tNow true
      [{ title := some t, content := some c }, { title := some t, content := some c }]
      "merge".data).1 = .ok ⟨1, 1, []⟩
    ∧ (batchCreatePrompts st ids tNow true
      [{ title := some t, content := some c }, { title := some t, content := some c }]
      "merge".data).2.prompts = [⟨ids 0, t, c, [], tNow, tNow⟩]
    ∧ (∀ st2 : State,
        (batchCreatePrompts st2 ids tNow true
          [{ title := some t, content := some c }, { title := some t, content := some c }]
          "replace".data).1 = .ok ⟨2, 0, []⟩
        ∧ (batchCreatePrompts st2 ids tNow true
          [{ title := some t, content := some c }, { title := some t, content := some c }]
          "replace".data).2.prompts
          = [⟨ids 0, t, c, [], tNow, tNow⟩, ⟨ids 1, t, c, [], tNow, tNow⟩]) := by
  have hm1 : (("merge".data : Str) == "replace".data) = false := rfl
  have hm2 : (("merge".data : Str) == "merge".data) = true := rfl
  have hm3 : (("replace".data : Str) == "replace".data) = true := rfl
  have hm4 : (("replace".data : Str) == "merge".data) = false := rfl
  have hcontent : (if !c.isEmpty then jsTrim c else []) = c := by
    cases c with
    | nil => rfl
    | cons a l => simpa using hc
  have hcontent2 : (if c = [] then [] else c) = c := by
    by_cases h : c = [] <;> simp [h]
  have hst : sanitizeTags ([] : List Str) = [] := rfl
  refine ⟨?_, ?_, ?_⟩
  · simp [batchCreatePrompts, batchLoop, batchItem, hval, hempty, hm1, hm2, ht,
      hc, hcontent, hcontent2, hst, rawConcat]
  · simp [batchCreatePrompts, batchLoop, batchItem, hval, hempty, hm1, hm2, ht,
      hc, hcontent, hcontent2, hst, rawConcat]
  · intro st2
    constructor
    · simp [batchCreatePrompts, batchLoop, batchItem, hval, hm3, hm4, ht, hc,
        hcontent, hcontent2, hst, rawConcat]
    · simp [batchCreatePrompts, batchLoop, batchItem, hval, hm3, hm4, ht, hc,
        hcontent, hcontent2, hst, rawConcat]

/-- Witness for C3 at the trimmed valid pair `{ title: "a", content: "b" }`. -/
theorem batch_merge_dedup_amended_witness :
    (batchCreatePrompts ⟨1, []⟩ natToStr 7 true
      [{ title := some "a".data, content := some "b".data },
       { title := some "a".data, content := some "b".data }]
      "merge".data).1 = .ok ⟨1, 1, []⟩ :=
  (batch_merge_dedup_amended ⟨1, []⟩ "a".data "b".data natToStr 7
    (by decide) (by decide) (by decide) rfl).1



theorem lookupF_setField_self (l : List (Str × JVal)) (k : Str) (v : JVal) :
    lookupF (setField l k v) k = some v := by
  induction l with
  | nil => simp [setField, lookupF, List.find?]
  | cons e rest ih =>
    obtain ⟨k2, v2⟩ := e
    cases hk : (k2 == k) with
    | true => simp [setField, hk, lookupF, List.find?]
    | false =>
      simp only [setField, hk, Bool.false_eq_true, if_false]
      simp only [lookupF, List.find?, hk] at ih ⊢
      exact ih

theorem lookupF_setField_ne (l : List (Str × JVal)) {k k' : Str} (v : JVal)
    (hne : (k' == k) = false) :
    lookupF (setField l k' v) k = lookupF l k := by
  induction l with
  | nil => simp [setField, lookupF, List.find?, hne]
  | cons e rest ih =>
    obtain ⟨k2, v2⟩ := e
    cases hk : (k2 == k') with
    | true =>
      have hk2 : k2 = k' := eq_of_beq hk
      subst hk2
      simp only [setField, hk, if_true]
      simp only [lookupF, List.find?, hne]
    | false =>
      simp only [setField, hk, Bool.false_eq_true, if_false]
      simp only [lookupF, List.find?] at ih ⊢
      cases hk2k : (k2 == k) <;> simp [hk2k, ih]

theorem setField_of_lookupF {l : List (Str × JVal)} {k : Str} {v : JVal}
    (h : lookupF l k = some v) : setField l k v = l := by
  induction l with
  | nil => simp [lookupF, List.find?] at h
  | cons e rest ih =>
    obtain ⟨k2, v2⟩ := e
    cases hk : (k2 == k) with
    | true =>
      have hk2 : k2 = k := eq_of_beq hk
      subst hk2
      simp only [lookupF, List.find?, hk] at h
      simp only [Option.map_some', Option.some.injEq] at h
      simp [setField, hk, h]
    | false =>
      simp only [lookupF, List.find?, hk] at h
      simp only [setField, hk, Bool.false_eq_true, if_false]
      simp only [lookupF] at ih
      rw [ih h]

theorem jsOr_keep {v : JVal} (fb : JVal) (h : v.truthy = true) :
    jsOr (some v) fb = v := by
  simp [jsOr, h]

theorem jsOr_truthy_of_fb {fb : JVal} (x : Option JVal) (h : fb.truthy = true) :
    (jsOr x fb).truthy = true := by
  cases x with
  | none => simpa [jsOr] using h
  | some v =>
    cases hv : v.truthy with
    | true => simpa [jsOr, hv] using hv
    | false => simpa [jsOr, hv] using h

theorem jsOr_keep_of_truthy_fb {fb1 : JVal} (x : Option JVal) (fb2 : JVal)
    (h : fb1.truthy = true) :
    jsOr (some (jsOr x fb1)) fb2 = jsOr x fb1 :=
  jsOr_keep fb2 (jsOr_truthy_of_fb x h)

theorem jsOr_idem (x : Option JVal) (fb : JVal) :
    jsOr (some (jsOr x fb)) fb = jsOr x fb := by
  cases x with
  | none => simp [jsOr]
  | some v =>
    cases hv : v.truthy with
    | true => simp [jsOr, hv]
    | false => simp [jsOr, hv]

theorem repairId_truthy {ids : Nat → Str} (h : ∀ n, ids n ≠ [])
    (v? : Option JVal) (ctr : Nat) :
    ((repairId ids v? ctr).1).truthy = true := by
  cases v? with
  | none => simpa [repairId, JVal.truthy] using h ctr
  | some v =>
    cases hv : v.truthy with
    | true =>
      simp only [repairId, hv, if_true]
    | false =>
      simp only [repairId, hv, Bool.false_eq_true, if_false]
      simpa [JVal.truthy] using h ctr

theorem repairId_keep {v : JVal} (ids : Nat → Str) (ctr : Nat)
    (h : v.truthy = true) : repairId ids (some v) ctr = (v, ctr) := by
  simp [repairId, h]

theorem repairTags_arr (v? : Option JVal) : ∃ xs, repairTags v? = JVal.arr xs := by
  cases v? with
  | none => exact ⟨_, rfl⟩
  | some v => cases v <;> exact ⟨_, rfl⟩

theorem repairTags_idem (v? : Option JVal) :
    repairTags (some (repairTags v?)) = repairTags v? := by
  obtain ⟨xs, hx⟩ := repairTags_arr v?
  rw [hx]
  rfl

theorem repairPrompt_on_rec (ids : Nat → Str) (tN : Int) (a b c d e f : JVal)
    (ctr : Nat) :
    repairPrompt ids tN (JVal.obj [(kId, a), (kTitle, b), (kContent, c),
      (kTags, d), (kCreatedAt, e), (kUpdatedAt, f)]) ctr
    = (JVal.obj [(kId, (repairId ids (some a) ctr).1),
        (kTitle, jsOr (some b) (JVal.str "Untitled".data)),
        (kContent, jsOr (some c) (JVal.str [])),
        (kTags, repairTags (some d)),
        (kCreatedAt, jsOr (some e) (JVal.num tN)),
        (kUpdatedAt, jsOr (some f) (JVal.num tN))],
       (repairId ids (some a) ctr).2) := rfl

theorem repairPrompt_idem {ids1 : Nat → Str} {t1 : Int}
    (h1 : ∀ n, ids1 n ≠ []) (h2 : t1 ≠ 0)
    (ids2 : Nat → Str) (t2 : Int) (p : JVal) (ctr ctr2 : Nat) :
    repairPrompt ids2 t2 (repairPrompt ids1 t1 p ctr).1 ctr2
      = ((repairPrompt ids1 t1 p ctr).1, ctr2) := by
  have ht1 : (JVal.num t1).truthy = true := by
    simpa [JVal.truthy] using h2
  have hu : (JVal.str "Untitled".data).truthy = true := rfl
  rw [show (repairPrompt ids1 t1 p ctr).1
      = JVal.obj [(kId, (repairId ids1 (p.getProp kId) ctr).1),
        (kTitle, jsOr (p.getProp kTitle) (JVal.str "Untitled".data)),
        (kContent, jsOr (p.getProp kContent) (JVal.str [])),
        (kTags, repairTags (p.getProp kTags)),
        (kCreatedAt, jsOr (p.getProp kCreatedAt) (JVal.num t1)),
        (kUpdatedAt, jsOr (p.getProp kUpdatedAt) (JVal.num t1))] from rfl,
    repairPrompt_on_rec,
    repairId_keep _ _ (repairId_truthy h1 _ _),
    jsOr_keep_of_truthy_fb _ _ hu,
    jsOr_idem,
    repairTags_idem,
    jsOr_keep_of_truthy_fb _ _ ht1,
    jsOr_keep_of_truthy_fb _ _ ht1]

theorem repairAll_idem {ids1 : Nat → Str} {t1 : Int}
    (h1 : ∀ n, ids1 n ≠ []) (h2 : t1 ≠ 0) (ids2 : Nat → Str) (t2 : Int) :
    ∀ (l : List JVal) (ctr ctr2 : Nat),
      repairAll ids2 t2 ctr2 (repairAll ids1 t1 ctr l)
        = repairAll ids1 t1 ctr l := by
  intro l
  induction l with
  | nil => intro ctr ctr2; rfl
  | cons p ps ih =>
    intro ctr ctr2
    simp only [repairAll]
    rw [repairPrompt_idem h1 h2]
    simp [ih]

theorem repairAll_filter (ids : Nat → Str) (tN : Int) :
    ∀ (l : List JVal) (ctr : Nat),
      (repairAll ids tN ctr l).filter (fun p => p.truthy && p.isObjType)
        = repairAll ids tN ctr l := by
  intro l
  induction l with
  | nil => intro ctr; rfl
  | cons p ps ih =>
    intro ctr
    simp only [repairAll, List.filter]
    rw [show ((repairPrompt ids tN p ctr).1.truthy
        && (repairPrompt ids tN p ctr).1.isObjType) = true from rfl]
    rw [ih]

theorem migrate_obj_fixed {ids1 : Nat → Str} {t1 : Int}
    (h1 : ∀ n, ids1 n ≠ []) (h2 : t1 ≠ 0) (ids2 : Nat → Str) (t2 : Int)
    {F : List (Str × JVal)} {cl : List JVal}
    (hFp : lookupF F kPrompts = some (JVal.arr cl))
    (hFv : lookupF F kVersion = some (JVal.num 1))
    (hcl : ∃ l ctr, cl = repairAll ids1 t1 ctr l) :
    migrate ids2 t2 (JVal.obj F) = JVal.obj F := by
  have hguard : migrate ids2 t2 (JVal.obj F) = migrateBody ids2 t2 (JVal.obj F) := by
    simp [migrate, JVal.truthy, JVal.isObjType]
  have hm : migratePromptsOf ids2 t2 (JVal.obj F) = cl := by
    unfold migratePromptsOf
    rw [show spreadFields (JVal.obj F) = F from rfl, hFp]
    rw [show (match some (JVal.arr cl) with
      | some (JVal.arr xs) => xs
      | _ => ([] : List JVal)) = cl from rfl]
    obtain ⟨l, ctr, hceq⟩ := hcl
    subst hceq
    rw [repairAll_filter, repairAll_idem h1 h2]
  rw [hguard]
  unfold migrateBody
  rw [show spreadFields (JVal.obj F) = F from rfl, hm,
    setField_of_lookupF hFp, setField_of_lookupF hFv]

/-- **C6** (confirmed).  Migration is idempotent: for every stored value
`x` — of any shape, including non-objects, arrays, and malformed records —
running `migrate` on its own output returns that output unchanged, for any
fresh-id/timestamp supplies of the two runs, given only that the first
run's environment is sane (`uuid()` returns non-empty strings and
`Date.now()` is non-zero, both true of the real environment). -/
theorem migrate_idempotent (ids1 ids2 : Nat → Str) (t1 t2 : Int) (x : JVal)
    (h1 : ∀ n, ids1 n ≠ []) (h2 : t1 ≠ 0) :
    migrate ids2 t2 (migrate ids1 t1 x) = migrate ids1 t1 x := by
  by_cases hx : (x.truthy && x.isObjType) = true
  · have hmig1 : migrate ids1 t1 x = migrateBody ids1 t1 x := by
      simp [migrate, hx]
    rw [hmig1]
    unfold migrateBody
    have hvp : ((kVersion : Str) == kPrompts) = false := rfl
    apply migrate_obj_fixed h1 h2
    · rw [lookupF_setField_ne _ _ hvp, lookupF_setField_self]
    · exact lookupF_setField_self _ _ _
    · exact ⟨_, _, rfl⟩
  · have hxf : (x.truthy && x.isObjType) = false := by
      simpa using hx
    have hmig1 : migrate ids1 t1 x = defaultStateJ := by
      simp [migrate, hxf]
    rw [hmig1]
    rfl


/-- Witness for C6 on a malformed stored value: an object whose `prompts`
array holds an empty record and a non-object entry, plus an extra field. -/
theorem migrate_idempotent_witness :
    migrate (fun _ => "u".data) 42
      (migrate (fun _ => "v".data) 5
        (JVal.obj [(kPrompts, JVal.arr [JVal.obj [], JVal.num 0]),
          ("x".data, JVal.bool true)]))
    = migrate (fun _ => "v".data) 5
        (JVal.obj [(kPrompts, JVal.arr [JVal.obj [], JVal.num 0]),
          ("x".data, JVal.bool true)]) :=
  migrate_idempotent (fun _ => "v".data) (fun _ => "u".data) 5 42 _
    (by intro n; exact (by decide : "v".data ≠ [])) (by decide)



theorem lookupV_setEntry_self (m : AList) (k v : Str) :
    lookupV (setEntry m k v) k = some v := by
  induction m with
  | nil => simp [setEntry, lookupV, List.find?]
  | cons e rest ih =>
    obtain ⟨k2, v2⟩ := e
    cases hk : (k2 == k) with
    | true => simp [setEntry, hk, lookupV, List.find?]
    | false =>
      simp only [setEntry, hk, Bool.false_eq_true, if_false]
      simp only [lookupV, List.find?, hk] at ih ⊢
      exact ih

theorem lookupV_setEntry_ne (m : AList) {k k' : Str} (v : Str)
    (hne : (k' == k) = false) :
    lookupV (setEntry m k' v) k = lookupV m k := by
  induction m with
  | nil => simp [setEntry, lookupV, List.find?, hne]
  | cons e rest ih =>
    obtain ⟨k2, v2⟩ := e
    cases hk : (k2 == k') with
    | true =>
      have hk2 : k2 = k' := eq_of_beq hk
      subst hk2
      simp only [setEntry, hk, if_true]
      simp only [lookupV, List.find?, hne]
    | false =>
      simp only [setEntry, hk, Bool.false_eq_true, if_false]
      simp only [lookupV, List.find?] at ih ⊢
      cases hk2k : (k2 == k) <;> simp [hk2k, ih]

theorem setEntry_setEntry_same (m : AList) (k v w : Str) :
    setEntry (setEntry m k v) k w = setEntry m k w := by
  induction m with
  | nil => simp [setEntry]
  | cons e rest ih =>
    obtain ⟨k2, v2⟩ := e
    cases hk : (k2 == k) with
    | true =>
      simp [setEntry, hk]
    | false =>
      simp only [setEntry, hk, Bool.false_eq_true, if_false]
      rw [ih]

theorem formatDateTime_ne_nil (c : Clock) (b : Bool) :
    formatDateTime c b ≠ [] := by
  intro h
  cases b <;> simp [formatDateTime] at h

theorem substMiss_congr {av1 av2 : AList} (h : ∀ k, lookupV av1 k = lookupV av2 k)
    (name : Str) (d? : Option Str) : substMiss av1 name d? = substMiss av2 name d? := by
  simp only [substMiss]
  rw [h (jsTrim name)]

theorem replLoop_congr {av1 av2 : AList} (h : ∀ k, lookupV av1 k = lookupV av2 k)
    (s : Str) : replLoop av1 s = replLoop av2 s := by
  have H : ∀ (n : Nat) (s : Str), s.length ≤ n → replLoop av1 s = replLoop av2 s := by
    intro n
    induction n with
    | zero =>
      intro s hs
      have hnil : s = [] := List.eq_nil_of_length_eq_zero (Nat.le_zero.mp hs)
      subst hnil
      rw [replLoop_nil, replLoop_nil]
    | succ n ih =>
      intro s hs
      cases htp : tryPlaceholder s with
      | some pl =>
        obtain ⟨name, d?, rem⟩ := pl
        have hlen := tryPlaceholder_length htp
        rw [replLoop_match htp, replLoop_match htp, substMiss_congr h,
          ih rem (by omega)]
      | none =>
        cases s with
        | nil => rw [replLoop_nil, replLoop_nil]
        | cons ch rest =>
          rw [replLoop_nomatch htp, replLoop_nomatch htp,
            ih rest (by simp only [List.length_cons] at hs; omega)]
  exact H s.length s (Nat.le_refl _)

/-- **C7** counterexample.  The claim says an occurrence is replaced by the
values-map entry whenever a non-empty one exists.  For content `{{today}}`
with a supplied non-empty value `"X"` for `today`, the occurrence is instead
replaced by the auto-computed current date (here under the clock
2026-10-11), overriding the supplied entry. -/
theorem applyPlaceholders_today_override_counterexample :
    lookupV [("today".data, "X".data)] "today".data = some "X".data
    ∧ ("X".data : Str) ≠ []
    ∧ (applyPlaceholders ⟨2026, 10, 11, 0, 0⟩ markerToday
        [("today".data, "X".data)]).text ≠ "X".data := by
  refine ⟨rfl, by decide, ?_⟩
  have htp : tryPlaceholder markerToday = some ("today".data, none, []) := rfl
  have hav : autoValues ⟨2026, 10, 11, 0, 0⟩ markerToday [("today".data, "X".data)]
      = [("today".data, "2026-10-11".data)] := rfl
  have hloop : replLoop [("today".data, "2026-10-11".data)] markerToday
      = ("2026-10-11".data, []) := by
    rw [replLoop_match htp, replLoop_nil]
    rfl
  have happ : applyPlaceholders ⟨2026, 10, 11, 0, 0⟩ markerToday
      [("today".data, "X".data)] = ⟨"2026-10-11".data, []⟩ := by
    simp only [applyPlaceholders]
    rw [show (markerToday.isEmpty) = false from rfl]
    simp only [Bool.false_eq_true, if_false]
    rw [hav, hloop]
    rfl
  rw [happ]
  decide

/-- **C7** (corrected/amended).  `applyPlaceholders` equals its
specification-side description against the EFFECTIVE values — the supplied
map with `today`/`now` overridden when their literal markers occur
(`specApplyPlaceholders`, which rewrites each occurrence left to right:
non-empty effective entry, else declared default including the empty one,
else the occurrence is kept and its trimmed name recorded in the
de-duplicated missing list).  Moreover `applyPlaceholders("{{x|foo}}", {})`
returns `"foo"` with no missing names for every clock, and any input without
a well-formed placeholder occurrence passes through unchanged. -/
theorem applyPlaceholders_spec_amended :
    (∀ (c : Clock) (text : Str) (values : AList),
      applyPlaceholders c text values = specApplyPlaceholders c text values)
    ∧ (∀ c : Clock,
      applyPlaceholders c "\x7b\x7bx|foo\x7d\x7d".data []
        = { text := "foo".data, missing := [] })
    ∧ (∀ (c : Clock) (text : Str) (values : AList), findPlaceholder text = none →
      applyPlaceholders c text values = { text := text, missing := [] }) := by
  refine ⟨applyPlaceholders_eq_spec, ?_, ?_⟩
  · intro c
    have hav : autoValues c "\x7b\x7bx|foo\x7d\x7d".data [] = [] := by
      unfold autoValues
      rw [show strIncludes "\x7b\x7bx|foo\x7d\x7d".data markerToday = false from rfl,
        show strIncludes "\x7b\x7bx|foo\x7d\x7d".data markerNow = false from rfl]
      rfl
    have htp : tryPlaceholder "\x7b\x7bx|foo\x7d\x7d".data
        = some ("x".data, some "foo".data, []) := rfl
    have hloop : replLoop [] "\x7b\x7bx|foo\x7d\x7d".data = ("foo".data, []) := by
      rw [replLoop_match htp, replLoop_nil]
      rfl
    simp only [applyPlaceholders]
    rw [show ("\x7b\x7bx|foo\x7d\x7d".data.isEmpty) = false from rfl]
    simp only [Bool.false_eq_true, if_false]
    rw [hav, hloop]
    rfl
  · intro c text values hnone
    simp only [applyPlaceholders]
    cases htext : text.isEmpty with
    | true =>
      have hte : text = [] := by simpa using htext
      subst hte
      simp
    | false =>
      simp only [htext, Bool.false_eq_true, if_false]
      rw [replLoop_eq_specSubst, specSubst_none hnone]
      rfl

/-- Witness for C7: unterminated markup passes through unchanged. -/
theorem applyPlaceholders_spec_amended_witness :
    applyPlaceholders ⟨2026, 10, 11, 9, 30⟩ "\x7b\x7bx\x7d oops".data []
      = { text := "\x7b\x7bx\x7d oops".data, missing := [] } :=
  applyPlaceholders_spec_amended.2.2 ⟨2026, 10, 11, 9, 30⟩
    "\x7b\x7bx\x7d oops".data [] (by decide)

/-- **C8** (confirmed).  Whenever the content contains the literal marker
`{{today}}` (resp. `{{now}}`), the effective values give name `today`
(resp. `now`) the formatted current date (resp. date-time), which is
non-empty — so by the substitution rule (see `specSubst`/`substMiss`,
applied via C7's equivalence) every occurrence of that name is substituted
with it — and the result is unchanged if the caller supplies ANY value of
their own for that name: the auto-value overrides it. -/
theorem auto_values_override (c : Clock) (text : Str) (values : AList) :
    (strIncludes text markerToday = true →
      lookupV (autoValues c text values) "today".data = some (formatDateTime c false)
      ∧ formatDateTime c false ≠ []
      ∧ ∀ v : Str, applyPlaceholders c text (setEntry values "today".data v)
          = applyPlaceholders c text values)
    ∧ (strIncludes text markerNow = true →
      lookupV (autoValues c text values) "now".data = some (formatDateTime c true)
      ∧ formatDateTime c true ≠ []
      ∧ ∀ v : Str, applyPlaceholders c text (setEntry values "now".data v)
          = applyPlaceholders c text values) := by
  constructor
  · intro hT
    refine ⟨?_, formatDateTime_ne_nil c false, ?_⟩
    · unfold autoValues
      rw [hT]
      simp only [if_true]
      cases hN : strIncludes text markerNow with
      | false =>
        simp only [Bool.false_eq_true, if_false]
        exact lookupV_setEntry_self _ _ _
      | true =>
        simp only [if_true]
        rw [lookupV_setEntry_ne _ _ (show (("now".data : Str) == "today".data) = false from rfl)]
        exact lookupV_setEntry_self _ _ _
    · intro v
      have hav : autoValues c text (setEntry values "today".data v)
          = autoValues c text values := by
        unfold autoValues
        rw [hT]
        simp only [if_true]
        rw [setEntry_setEntry_same]
      simp only [applyPlaceholders, hav]
  · intro hN
    refine ⟨?_, formatDateTime_ne_nil c true, ?_⟩
    · unfold autoValues
      rw [hN]
      simp only [if_true]
      exact lookupV_setEntry_self _ _ _
    · intro v
      have hlk : ∀ k, lookupV (autoValues c text (setEntry values "now".data v)) k
          = lookupV (autoValues c text values) k := by
        intro k
        unfold autoValues
        rw [hN]
        simp only [if_true]
        cases hT2 : strIncludes text markerToday with
        | false =>
          simp only [Bool.false_eq_true, if_false]
          rw [setEntry_setEntry_same]
        | true =>
          simp only [if_true]
          cases hnk : (("now".data : Str) == k) with
          | true =>
            have hk : "now".data = k := eq_of_beq hnk
            subst hk
            rw [lookupV_setEntry_self, lookupV_setEntry_self]
          | false =>
            rw [lookupV_setEntry_ne _ _ hnk, lookupV_setEntry_ne _ _ hnk]
            cases htk : (("today".data : Str) == k) with
            | true =>
              have hk : "today".data = k := eq_of_beq htk
              subst hk
              rw [lookupV_setEntry_self, lookupV_setEntry_self]
            | false =>
              rw [lookupV_setEntry_ne _ _ htk, lookupV_setEntry_ne _ _ htk,
                lookupV_setEntry_ne _ _ hnk]
      simp only [applyPlaceholders]
      cases htext : text.isEmpty with
      | true => simp only [htext, if_true]
      | false =>
        simp only [htext, Bool.false_eq_true, if_false]
        rw [replLoop_congr hlk]


/-- Witness for C8 at a concrete clock/content/values. -/
theorem auto_values_override_witness :
    lookupV (autoValues ⟨2026, 10, 11, 9, 30⟩ markerToday
        [("today".data, "X".data)]) "today".data
      = some (formatDateTime ⟨2026, 10, 11, 9, 30⟩ false)
    ∧ formatDateTime ⟨2026, 10, 11, 9, 30⟩ false ≠ []
    ∧ applyPlaceholders ⟨2026, 10, 11, 9, 30⟩ markerToday
        (setEntry [("today".data, "X".data)] "today".data "Y".data)
      = applyPlaceholders ⟨2026, 10, 11, 9, 30⟩ markerToday
        [("today".data, "X".data)] :=
  let h := (auto_values_override ⟨2026, 10, 11, 9, 30⟩ markerToday
    [("today".data, "X".data)]).1 (by decide)
  ⟨h.1, h.2.1, h.2.2 "Y".data⟩

end Promptboard
